import Mathlib

/-!
Verification development for the `usedphone_distributor` repository.

The repository is a Solana token-distribution system consisting of an
off-ledger backend (`src/backend`) and an on-ledger Anchor program
(`src/programs/distributor`).  The definitions below are a shallow
embedding of the code paths relevant to the stated properties:

* the holder directory (`src/backend/src/token_holder.rs`):
  `discover_token_holders_number` and `draw_winners`;
* the round orchestration of the live binary
  (`src/backend/src/main.rs`): `distribute_tokens`, `vault_balance`
  and `webhook_handle`;
* the fee helper (`src/backend/src/priority_fee.rs`):
  `fetch_recent_priority_fee`;
* the on-ledger program (`src/programs/distributor/src/lib.rs`):
  `initialize` parameter validation and the `distribute` instruction.

Machine integers (`u64`) are modelled as `Nat` with explicit reduction
modulo `2 ^ 64` at the operations where Rust release-mode arithmetic can
wrap.  Fallible Rust code (`anyhow::Result`, RPC calls, `?`) is modelled
with `Except`/`Option`; a Rust panic (out-of-bounds indexing, sampling
from an empty range) is modelled as a failure as well.  External
collaborators (the paginated listing API, the fee-estimation API, the
RPC blockhash/submit endpoints, the random number generator) are
parameters of the corresponding functions.
-/

/-- The modulus of unsigned 64-bit integers. -/
def U64 : Nat := 2 ^ 64

/-- Wrapping `u64` multiplication, the semantics of `a * b` on `u64` in a
Rust release build (debug builds would panic on overflow instead). -/
def mulW (a b : Nat) : Nat := a * b % U64

/-- Wrapping `u64` subtraction, the semantics of `a - b` on `u64` in a
Rust release build. -/
def subW (a b : Nat) : Nat := (a + U64 - b % U64) % U64

/-- The `DistributorState` account data
(`src/programs/distributor/src/lib.rs`).  Addresses (`Pubkey`) are
modelled as `Nat`; the two derivation bumps are irrelevant to the
properties and omitted. -/
structure DistributorState where
  vault : Nat
  mint : Nat
  marker_mint : Nat
  distributor_authority : Nat
  share_size : Nat
  number_of_shares : Nat
deriving DecidableEq

/-- `DistributorState::threshold`: `share_size * number_of_shares` with
unchecked `u64` multiplication. -/
def DistributorState.threshold (st : DistributorState) : Nat :=
  mulW st.share_size st.number_of_shares

/-- The paginated holder-listing API (`getTokenAccounts`): a page number
is mapped to the result of the remote call, an error or a pair of the
`total` field and the `token_accounts` owner list (addresses as `Nat`).
The `mint` and `limit` arguments of the Rust call are fixed in every
call site (`limit = 1000`), so they are left out of the model. -/
def ListingApi : Type := Nat → Except String (Nat × List Nat)

/-- Loop body of `HeliusClient::discover_token_holders_number`
(`src/backend/src/token_holder.rs`, `for page in (holders/limit+1)..2000`):
the fuel counts the pages remaining before the exclusive upper bound
2000; exhausting it is the `There is more than 2000 pages` bail-out. -/
def discoverLoop (api : ListingApi) : Nat → Nat → Except String Nat
  | _, 0 => Except.error "There is more than 2000 pages of token accounts"
  | page, fuel + 1 =>
    match api page with
    | Except.error e => Except.error e
    | Except.ok pr =>
      if pr.1 < 1000 then Except.ok (1000 * (page - 1) + pr.1)
      else discoverLoop api (page + 1) fuel

/-- `HeliusClient::discover_token_holders_number`: resumes at page
`cached / 1000 + 1` and scans pages strictly below 2000. -/
def discover_token_holders_number (api : ListingApi) (cached : Nat) :
    Except String Nat :=
  let start := cached / 1000 + 1
  discoverLoop api start (2000 - start)

/-- `HeliusClient::update_token_holders_number`: refreshes the cached
count from a discovery pass.  The best-effort database upsert is
log-only in the source (a persistence failure never fails the call), so
it does not appear in the model; the returned value is the new cached
count. -/
def update_token_holders_number (api : ListingApi) (cached : Nat) :
    Except String Nat :=
  discover_token_holders_number api cached

/-- Insertion step of the sort used to model `sort_unstable`. -/
def insertSorted (x : Nat) : List Nat → List Nat
  | [] => [x]
  | y :: t => if x ≤ y then x :: y :: t else y :: insertSorted x t

/-- Model of `winner_idx.sort_unstable()` (element order is all that the
properties need, so any sorting algorithm is a faithful model). -/
def sortIdx : List Nat → List Nat
  | [] => []
  | x :: t => insertSorted x (sortIdx t)

/-- The page on which a holder index falls: `idx / limit + 1` with
`limit = 1000`. -/
def pageOf (idx : Nat) : Nat := idx / 1000 + 1

/-- Model of `winner_idx.into_iter().group_by(|idx| *idx / limit + 1)`:
maximal runs of consecutive elements sharing a page, tagged with that
page, in the original order. -/
def groupPages : List Nat → List (Nat × List Nat)
  | [] => []
  | h :: t =>
    match groupPages t with
    | [] => [(pageOf h, [h])]
    | (p, g) :: rest =>
      if pageOf h = p then (p, h :: g) :: rest
      else (pageOf h, [h]) :: (p, g) :: rest

/-- Maps every index of a group to `token_accounts[(idx % limit)]`.
`none` models the Rust panic on an out-of-bounds index. -/
def indexRecords (records : List Nat) : List Nat → Option (List Nat)
  | [] => some []
  | idx :: rest =>
    match records.get? (idx % 1000) with
    | none => none
    | some w =>
      match indexRecords records rest with
      | none => none
      | some ws => some (w :: ws)

/-- The page-fetch loop of `draw_winners`: for each `(page, idxs)` group
fetch the page once and extend the winner list; an API error or an
out-of-bounds index aborts the whole call. -/
def collectWinners (api : ListingApi) : List (Nat × List Nat) → Except String (List Nat)
  | [] => Except.ok []
  | (p, g) :: rest =>
    match api p with
    | Except.error e => Except.error e
    | Except.ok pr =>
      match indexRecords pr.2 g with
      | none => Except.error "index out of bounds"
      | some ws =>
        match collectWinners api rest with
        | Except.error e => Except.error e
        | Except.ok tail => Except.ok (ws ++ tail)

/-- `HeliusClient::draw_winners(n)`
(`src/backend/src/token_holder.rs`): draws `n` indices uniformly (with
replacement) from `[0, holders)`, sorts them, groups them by page, and
maps each index to the fetched record at `idx % 1000`.  The random
generator is modelled by the stream `rng`; the `i`-th sample of
`Uniform::from(0..holders)` is `rng i % holders`, which is exactly the
support of the distribution.  `Uniform::from(0..0)` panics in Rust
(`holders = 0`), modelled as a failure. -/
def draw_winners (api : ListingApi) (rng : Nat → Nat) (holders n : Nat) :
    Except String (List Nat) :=
  if holders = 0 then Except.error "cannot sample empty range"
  else
    collectWinners api
      (groupPages (sortIdx ((List.range n).map fun i => rng i % holders)))

/-- Solana `AccountMeta` (`pubkey`, `is_signer`, `is_writable`). -/
structure AccountMeta where
  pubkey : Nat
  isSigner : Bool
  isWritable : Bool
deriving DecidableEq

/-- Model of the external `spl_associated_token_account`
`get_associated_token_address` derivation: an opaque deterministic
injective encoding of the `(wallet, mint)` pair (the real PDA derivation
lives outside this repository; only determinism and the call sites
matter to the properties). -/
def get_associated_token_address (wallet mint : Nat) : Nat :=
  Nat.pair wallet mint

/-- The `remaining_accounts` assembly of both backends
(`main.rs` lines 117-123): for each winner, in order, a read-only
non-signer meta for the winner authority followed by a writable
non-signer meta for the winner's associated token account (the
`flat_map` over the two-element array, unrolled). -/
def remainingAccounts : List Nat → Nat → List AccountMeta
  | [], _ => []
  | w :: ws, mint =>
    { pubkey := w, isSigner := false, isWritable := false } ::
    { pubkey := get_associated_token_address w mint, isSigner := false, isWritable := true } ::
    remainingAccounts ws mint

/-- The fixed (non-auxiliary) accounts of the `Distribute` instruction
(`distributor::accounts::Distribute`). -/
structure FixedAccounts where
  payer : Nat
  distributor_authority : Nat
  distributor_state : Nat
  mint : Nat
  vault : Nat
  system_program : Nat
  token_program : Nat
  associated_token_program : Nat
deriving DecidableEq

/-- Opaque program id standing for `solana_sdk::system_program::ID`. -/
def system_program_id : Nat := 0

/-- Opaque program id standing for `spl_token::ID`. -/
def token_program_id : Nat := 1

/-- Opaque program id standing for `spl_associated_token_account::ID`. -/
def associated_token_program_id : Nat := 2

/-- The instructions a distribution transaction can carry. -/
inductive Instr where
  | computeUnitLimit (units : Nat)
  | computeUnitPrice (price : Nat)
  | memo (msg : String)
  | distributeIx (fixed : FixedAccounts) (remaining : List AccountMeta)
deriving DecidableEq

/-- A signed transaction
(`Transaction::new_signed_with_payer(&ixns, Some(&payer), &[payer, distributor_authority], latest_hash)`). -/
structure SignedTx where
  instructions : List Instr
  payer : Nat
  signers : List Nat
  recentBlockhash : Nat
deriving DecidableEq

/-- Observable side effects of one round attempt, in order of
occurrence: a successful holder-count refresh, a successful winner
draw, and a successful transaction submission. -/
inductive Effect where
  | refreshed (holders : Nat)
  | drew (winners : List Nat)
  | submitted (tx : SignedTx)
deriving DecidableEq

/-- Responses of the external collaborators consumed during one round:
the listing API, the random generator, `get_latest_blockhash`, the
fee-estimation API (`getPriorityFeeEstimate`, a floating-point estimate
modelled as a rational), and `send_transaction`. -/
structure Env where
  api : ListingApi
  rng : Nat → Nat
  blockhashResult : Except String Nat
  feeResult : Except String ℚ
  sendResult : Except String Nat

/-- Rust `f64 as u64` applied to the fee estimate: truncation toward
zero saturated into the `u64` range (negative values collapse to 0,
values at or above `2^64` to `2^64 - 1`; `NaN`, which the cast sends to
0, has no rational counterpart and is not modelled). -/
def feeTruncate (q : ℚ) : Nat :=
  min (Int.toNat ⌊q⌋) (U64 - 1)

/-- `fetch_recent_priority_fee` (`src/backend/src/priority_fee.rs`):
propagates the API error, otherwise casts the floating-point estimate
to `u64`; no default is substituted. -/
def fetch_recent_priority_fee (resp : Except String ℚ) : Except String Nat :=
  Except.map feeTruncate resp

/-- The backend application state (`AppState` in
`src/backend/src/main.rs`): the drawn keys are modelled by their public
keys; the `HeliusClient` cached holder count is passed separately. -/
structure AppState where
  distributor_state_pubkey : Nat
  distributor_state : DistributorState
  payer : Nat
  distributor_authority : Nat
  memo : String

/-- The fixed account set `distributor::accounts::Distribute { .. }` as
assembled by `distribute_tokens`. -/
def fixedAccounts (st : AppState) : FixedAccounts where
  payer := st.payer
  distributor_authority := st.distributor_authority
  distributor_state := st.distributor_state_pubkey
  mint := st.distributor_state.mint
  vault := st.distributor_state.vault
  system_program := system_program_id
  token_program := token_program_id
  associated_token_program := associated_token_program_id

/-- `distribute_tokens` (`src/backend/src/main.rs` lines 89-173), the
round-execution function of the live binary.  `holders` is the
`HeliusClient` cached holder count on entry.  Returns the call result
together with the trace of successful effects.  The threshold is the
unchecked `u64` product `share_size * number_of_shares` (line 94); the
function returns `Ok` at once when the balance is below it, otherwise
it refreshes the holder count, draws `number_of_shares - 1` winners,
fetches the blockhash and the priority fee, assembles the
limit/price/memo/distribute instruction list, signs and submits. -/
def distribute_tokens (env : Env) (st : AppState) (holders vault_balance : Nat) :
    Except String Unit × List Effect :=
  let threshold := mulW st.distributor_state.share_size st.distributor_state.number_of_shares
  if threshold ≤ vault_balance then
    match update_token_holders_number env.api holders with
    | Except.error e => (Except.error e, [])
    | Except.ok h =>
      match draw_winners env.api env.rng h (subW st.distributor_state.number_of_shares 1) with
      | Except.error e => (Except.error e, [Effect.refreshed h])
      | Except.ok winners =>
        let rem := remainingAccounts winners st.distributor_state.mint
        match env.blockhashResult with
        | Except.error e => (Except.error e, [Effect.refreshed h, Effect.drew winners])
        | Except.ok bh =>
          match fetch_recent_priority_fee env.feeResult with
          | Except.error e => (Except.error e, [Effect.refreshed h, Effect.drew winners])
          | Except.ok priority_fee =>
            let ixns := [Instr.computeUnitLimit 800000,
                         Instr.computeUnitPrice priority_fee,
                         Instr.memo st.memo,
                         Instr.distributeIx (fixedAccounts st) rem]
            let tx : SignedTx :=
              { instructions := ixns
                payer := st.payer
                signers := [st.payer, st.distributor_authority]
                recentBlockhash := bh }
            match env.sendResult with
            | Except.error e => (Except.error e, [Effect.refreshed h, Effect.drew winners])
            | Except.ok _sig => (Except.ok (), [Effect.refreshed h, Effect.drew winners, Effect.submitted tx])
  else (Except.ok (), [])

/-- One entry of `post_token_balances`
(`UiTransactionTokenBalance`): the `account_index` and the
`ui_token_amount.amount` decimal string, modelled by its `u64` parse
result (`some v` exactly when the string parses). -/
structure TokenBalanceRecord where
  account_index : Nat
  amount : Option Nat
deriving DecidableEq

/-- The `meta` field of a confirmed transaction record:
`post_token_balances` is `OptionSerializer`, absent when the record
carries no token-balance metadata. -/
structure MetaRecord where
  post_token_balances : Option (List TokenBalanceRecord)
deriving DecidableEq

/-- One record of the webhook batch
(`EncodedConfirmedTransactionWithStatusMeta`): `account_keys` is `some`
exactly when the transaction is JSON/raw-encoded and every key string
parses as a public key (both failure modes error out identically in
`vault_balance`), and `meta` may be absent. -/
structure TxRecord where
  account_keys : Option (List Nat)
  meta : Option MetaRecord
deriving DecidableEq

/-- `vault_balance` (`src/backend/src/main.rs` lines 258-297): locate
the vault in the account key list, find the first post-token-balance
entry at that position and parse its amount; any missing piece fails
the record.  The caller only uses `.ok()`, so the model returns
`Option`. -/
def vault_balance (vault : Nat) (tx : TxRecord) : Option Nat := do
  let keys ← tx.account_keys
  let pos ← keys.findIdx? (· = vault)
  let m ← tx.meta
  let ptb ← m.post_token_balances
  let tb ← ptb.find? (fun b => b.account_index = pos)
  tb.amount

/-- The balance selection of `webhook_handle` (lines 46-53):
`transactions.iter().filter_map(|tx| vault_balance(..).ok()).last()`. -/
def webhook_extract (vault : Nat) (txs : List TxRecord) : Option Nat :=
  (txs.filterMap (vault_balance vault)).getLast?

/-- `webhook_handle` (`src/backend/src/main.rs` lines 37-61), the live
webhook route: on a batch with no extractable vault balance it logs and
returns success; otherwise it runs `distribute_tokens` on the extracted
balance and maps a round failure to HTTP status 500 (the body-parse
rejection path, status 400, is upstream of the modelled input).  The
effect trace of the round attempt is returned alongside. -/
def webhook_handle (env : Env) (st : AppState) (holders : Nat) (txs : List TxRecord) :
    Except Nat Unit × List Effect :=
  match webhook_extract st.distributor_state.vault txs with
  | none => (Except.ok (), [])
  | some b =>
    match distribute_tokens env st holders b with
    | (Except.ok _, tr) => (Except.ok (), tr)
    | (Except.error _, tr) => (Except.error 500, tr)

/-- The error codes of `src/programs/distributor/src/error.rs`, plus
`TokenError` standing for a failed CPI into the external token program
(insufficient funds or balance overflow). -/
inductive DistributorError where
  | InvalidParameters
  | ThresholdNotMet
  | MissingRemainingAccounts
  | InvalidAssociatedTokenAccount
  | TokenError
deriving DecidableEq

/-- Parameter validation of the `initialize` instruction
(`src/programs/distributor/src/lib.rs` lines 18-24):
`require_gt!(share_size, 0)`, `require_gt!(number_of_shares, 1)` and
`require!(share_size.checked_mul(number_of_shares).is_some())` — for
`u64` inputs `checked_mul` succeeds exactly when the product is below
`2^64`.  The subsequent state-account writes carry no further logic and
are omitted. -/
def initialize_check (share_size number_of_shares : Nat) :
    Except DistributorError Unit :=
  if share_size > 0 then
    if number_of_shares > 1 then
      if share_size * number_of_shares < U64 then Except.ok ()
      else Except.error DistributorError.InvalidParameters
    else Except.error DistributorError.InvalidParameters
  else Except.error DistributorError.InvalidParameters

/-- Token-account balances on the ledger, indexed by account address. -/
def Balances : Type := Nat → Nat

/-- Pointwise update of a balance map. -/
def updateBal (bal : Balances) (a v : Nat) : Balances :=
  fun x => if x = a then v else bal x

/-- The token program's `transfer_checked` CPI as invoked by
`distribute`: moves `amount` from the vault account to `dest`, failing
on insufficient source funds or destination `u64` overflow (the token
program uses checked arithmetic). -/
def transferChecked (amount vault dest : Nat) (bal : Balances) :
    Except DistributorError Balances :=
  if bal vault < amount then Except.error DistributorError.TokenError
  else if U64 ≤ updateBal bal vault (bal vault - amount) dest + amount then
    Except.error DistributorError.TokenError
  else
    Except.ok (updateBal (updateBal bal vault (bal vault - amount)) dest
      (updateBal bal vault (bal vault - amount) dest + amount))

/-- The token program's `burn` CPI as invoked by `distribute`: removes
`amount` from the vault account, failing on insufficient funds (the
matching mint-supply decrease is outside the modelled state). -/
def burnChecked (amount vault : Nat) (bal : Balances) :
    Except DistributorError Balances :=
  if bal vault < amount then Except.error DistributorError.TokenError
  else Except.ok (updateBal bal vault (bal vault - amount))

/-- `ctx.remaining_accounts.iter().tuples()`: consecutive
(authority, token account) pairs; a trailing odd element is dropped,
exactly as `Itertools::tuples` drops it. -/
def pairsOf : List AccountMeta → List (AccountMeta × AccountMeta)
  | a :: b :: t => (a, b) :: pairsOf t
  | _ => []

/-- The per-pair loop of `distribute` (lines 73-120): checks that the
token account is the associated token account of the authority for the
mint, then transfers `share_size` from the vault to it.  The
create-if-uninitialized CPI and the mint/owner field checks on the
loaded token account concern account metadata outside the balance
state and are abstracted away (they can only add further failure
cases). -/
def runTransfers (st : DistributorState) :
    List (AccountMeta × AccountMeta) → Balances → Except DistributorError Balances
  | [], bal => Except.ok bal
  | (authority, token_account) :: rest, bal =>
    if token_account.pubkey = get_associated_token_address authority.pubkey st.mint then
      match transferChecked st.share_size st.vault token_account.pubkey bal with
      | Except.error e => Except.error e
      | Except.ok bal1 => runTransfers st rest bal1
    else Except.error DistributorError.InvalidAssociatedTokenAccount

/-- The `distribute` instruction
(`src/programs/distributor/src/lib.rs` lines 44-134): requires the
vault balance to be at least the threshold, requires exactly
`(number_of_shares - 1) * 2` remaining accounts (`u64` arithmetic),
then per pair transfers `share_size` from the vault to the verified
associated token account, and finally burns `share_size` from the
vault. -/
def distribute (st : DistributorState) (rem : List AccountMeta) (bal : Balances) :
    Except DistributorError Balances :=
  if bal st.vault < st.threshold then Except.error DistributorError.ThresholdNotMet
  else if rem.length = mulW (subW st.number_of_shares 1) 2 then
    match runTransfers st (pairsOf rem) bal with
    | Except.error e => Except.error e
    | Except.ok bal1 => burnChecked st.share_size st.vault bal1
  else Except.error DistributorError.MissingRemainingAccounts

/-- Fixture: a listing API on which every page is full (total 1000) and
carries the records `0, …, 999`. -/
def apiPages : ListingApi := fun _ => Except.ok (1000, List.range 1000)

/-- Fixture: a listing API whose every page reports total 3 with
records `0, …, 999`; a discovery pass starting from a cached count
below 1000 therefore finds 3 holders on page 1. -/
def apiThree : ListingApi := fun _ => Except.ok (3, List.range 1000)

/-- Fixture: the identity random stream. -/
def rngSeq : Nat → Nat := fun i => i

/-- Fixture: an environment whose collaborators all succeed. -/
def envOk : Env where
  api := apiThree
  rng := rngSeq
  blockhashResult := Except.ok 1
  feeResult := Except.ok 3
  sendResult := Except.ok 0

/-- Fixture: as `envOk` but the fee-estimation call fails. -/
def envFeeFail : Env :=
  { envOk with feeResult := Except.error "fee estimation unavailable" }

/-- Fixture: the scenario-A distributor state (`share_size = 10^9`,
`number_of_shares = 5`, threshold `5 * 10^9`), vault at address 100. -/
def stA : AppState where
  distributor_state_pubkey := 900
  distributor_state :=
    { vault := 100, mint := 7, marker_mint := 8, distributor_authority := 901,
      share_size := 1000000000, number_of_shares := 5 }
  payer := 902
  distributor_authority := 901
  memo := "distribution"

/-- Fixture: a state whose `share_size * number_of_shares` equals
`2^64` and therefore overflows `u64` (the wrapped threshold is 0). -/
def stOverflow : AppState :=
  { stA with distributor_state :=
      { stA.distributor_state with share_size := 2 ^ 63, number_of_shares := 2 } }

/-- Fixture: an on-ledger distributor state with `share_size = 5` and
`number_of_shares = 3`, vault at address 100. -/
def stChain : DistributorState where
  vault := 100
  mint := 7
  marker_mint := 8
  distributor_authority := 901
  share_size := 5
  number_of_shares := 3

/-- Fixture: the remaining accounts assembled for winners 11 and 12. -/
def remChain : List AccountMeta := remainingAccounts [11, 12] 7

/-- Fixture: ledger balances with 20 tokens in the vault (address 100)
and empty accounts elsewhere. -/
def balChain : Balances := fun a => if a = 100 then 20 else 0

/-- Fixture: a webhook record whose account keys contain the vault
(address 100) at position 0 and whose post balance there is `b`. -/
def txWith (b : Nat) : TxRecord where
  account_keys := some [100]
  meta := some { post_token_balances := some [{ account_index := 0, amount := some b }] }

/-- Fixture: a webhook record from which no balance can be extracted
(non-JSON encoding, no metadata). -/
def txBad : TxRecord where
  account_keys := none
  meta := none

/-- Fixture: a listing API serving 1999 full pages of 1000 records
followed by a page with 5 records. -/
def apiCeil : ListingApi :=
  fun p => Except.ok (if p ≤ 1999 then 1000 else 5, List.range 1000)

/-- Fixture: a listing API with pages 1 and 2 full and page 3 reporting
total 400 (scenario C of the specification). -/
def apiScenC : ListingApi :=
  fun p => Except.ok (if p ≤ 2 then 1000 else 400, List.range 1000)

theorem mulW_eq_of_lt {a b : Nat} (h : a * b < U64) : mulW a b = a * b :=
  Nat.mod_eq_of_lt h

theorem subW_one_eq {a : Nat} (h1 : 1 ≤ a) (h2 : a < U64) : subW a 1 = a - 1 := by
  have hU : U64 = 2 ^ 64 := rfl
  simp only [subW, hU]
  omega

/-- C1.  Threshold decision of the round-execution function: below the
threshold `share_size * number_of_shares` the call returns successfully
with no refresh, draw or submission; at or above it, and with every
collaborator succeeding, the round runs exactly once — one holder-count
refresh, one winner draw, one submitted transaction, in that order. -/
theorem c1_threshold_decision (env : Env) (st : AppState) (holders balance : Nat)
    (hov : st.distributor_state.share_size * st.distributor_state.number_of_shares < U64) :
    (balance < st.distributor_state.share_size * st.distributor_state.number_of_shares →
      distribute_tokens env st holders balance = (Except.ok (), [])) ∧
    (st.distributor_state.share_size * st.distributor_state.number_of_shares ≤ balance →
      ∀ h ws bh fee sig,
        update_token_holders_number env.api holders = Except.ok h →
        draw_winners env.api env.rng h (subW st.distributor_state.number_of_shares 1) =
          Except.ok ws →
        env.blockhashResult = Except.ok bh →
        fetch_recent_priority_fee env.feeResult = Except.ok fee →
        env.sendResult = Except.ok sig →
        (distribute_tokens env st holders balance).1 = Except.ok () ∧
        ∃ tx, (distribute_tokens env st holders balance).2 =
          [Effect.refreshed h, Effect.drew ws, Effect.submitted tx]) := by
  constructor
  · intro hlt
    unfold distribute_tokens
    rw [mulW_eq_of_lt hov]
    simp [Nat.not_le.mpr hlt]
  · intro hge h ws bh fee sig h1 h2 h3 h4 h5
    unfold distribute_tokens
    rw [mulW_eq_of_lt hov]
    simp [hge, h1, h2, h3, h4, h5]

set_option maxRecDepth 4000 in
/-- Witness for C1 at scenario A/B inputs: threshold `5·10^9`, balance
`4·10^9` is a no-op, balance `5·10^9` runs the round once. -/
theorem c1_threshold_decision_witness :
    distribute_tokens envOk stA 0 4000000000 = (Except.ok (), []) ∧
    (distribute_tokens envOk stA 0 5000000000).1 = Except.ok () ∧
    ∃ tx, (distribute_tokens envOk stA 0 5000000000).2 =
      [Effect.refreshed 3, Effect.drew [0, 0, 1, 2], Effect.submitted tx] := by
  refine ⟨(c1_threshold_decision envOk stA 0 4000000000 (by norm_num [stA, U64])).1
    (by norm_num [stA]), ?_⟩
  exact (c1_threshold_decision envOk stA 0 5000000000 (by norm_num [stA, U64])).2
    (by norm_num [stA]) 3 [0, 0, 1, 2] 1 (feeTruncate 3) 0 rfl rfl rfl rfl rfl

theorem discoverLoop_terminal (api : ListingApi) (t r : Nat) (hr : r < 1000)
    (ht : ∃ pr, api t = Except.ok pr ∧ pr.1 = r) :
    ∀ fuel start, start ≤ t → t - start < fuel →
    (∀ p, start ≤ p → p < t → ∃ pr, api p = Except.ok pr ∧ pr.1 = 1000) →
    discoverLoop api start fuel = Except.ok (1000 * (t - 1) + r) := by
  intro fuel
  induction fuel with
  | zero => intro start h1 h2 _; omega
  | succ n ih =>
    intro start hst hlt hfull
    by_cases hs : start = t
    · subst hs
      obtain ⟨pr, hpr, hpr1⟩ := ht
      unfold discoverLoop
      rw [hpr]
      simp [hpr1, hr]
    · have h1 : start < t := lt_of_le_of_ne hst hs
      obtain ⟨pr, hpr, hpr1⟩ := hfull start le_rfl h1
      unfold discoverLoop
      rw [hpr]
      simp only [hpr1, lt_irrefl, if_false]
      exact ih (start + 1) (by omega) (by omega) (fun p hp1 hp2 => hfull p (by omega) hp2)

/-- C3 (amended).  Pagination correctness, bounded by the 2000-page
scan ceiling: for a listing API serving `K` full pages of exactly 1000
records followed by a final page with `r < 1000` records, and `K + 1`
below the ceiling, a refresh resuming from any cached count whose
resumption page `cached / 1000 + 1` is at most `K + 1` returns
`1000 * K + r`, computed as `1000 * (page - 1) + total` on the first
page whose total is below 1000. -/
theorem c3_pagination_amended (api : ListingApi) (K r cached : Nat)
    (hr : r < 1000) (hceil : K + 1 < 2000) (hstart : cached / 1000 + 1 ≤ K + 1)
    (hfull : ∀ p, 1 ≤ p → p ≤ K → ∃ pr, api p = Except.ok pr ∧ pr.1 = 1000)
    (hlast : ∃ pr, api (K + 1) = Except.ok pr ∧ pr.1 = r) :
    discover_token_holders_number api cached = Except.ok (1000 * K + r) := by
  unfold discover_token_holders_number
  have hres := discoverLoop_terminal api (K + 1) r hr hlast
    (2000 - (cached / 1000 + 1)) (cached / 1000 + 1) hstart (by omega)
    (fun p hp1 hp2 => hfull p (by omega) (by omega))
  simpa using hres

/-- Counterexample for C3 as stated: with `K = 1999` full pages, a final
page of 5 records, and the in-scope starting resumption page
`1999000 / 1000 + 1 = 2000 = K + 1`, the refresh does not return
`1000 * 1999 + 5` but fails with the page-scan ceiling error. -/
theorem c3_pagination_counterexample :
    discover_token_holders_number apiCeil 1999000 =
      Except.error "There is more than 2000 pages of token accounts" ∧
    1999000 / 1000 + 1 = 1999 + 1 := ⟨rfl, by norm_num⟩

/-- Witness for C3 at scenario C: pages of 1000 with page 3 reporting
total 400 yield a refreshed count of 2400 from a cold cache. -/
theorem c3_pagination_amended_witness :
    discover_token_holders_number apiScenC 0 = Except.ok 2400 :=
  c3_pagination_amended apiScenC 2 400 0 (by norm_num) (by norm_num) (by norm_num)
    (fun p hp1 hp2 => ⟨_, rfl, by simp [apiScenC, hp2]⟩)
    ⟨_, rfl, by norm_num [apiScenC]⟩

theorem length_insertSorted (x : Nat) (l : List Nat) :
    (insertSorted x l).length = l.length + 1 := by
  induction l with
  | nil => rfl
  | cons y t ih =>
    unfold insertSorted
    split <;> simp [ih]

theorem mem_insertSorted {y x : Nat} {l : List Nat} :
    y ∈ insertSorted x l ↔ y = x ∨ y ∈ l := by
  induction l with
  | nil => simp [insertSorted]
  | cons z t ih =>
    unfold insertSorted
    split
    · simp [ih]
    · simp [ih]
      tauto

theorem length_sortIdx (l : List Nat) : (sortIdx l).length = l.length := by
  induction l with
  | nil => rfl
  | cons x t ih => simp [sortIdx, length_insertSorted, ih]

theorem mem_sortIdx {y : Nat} {l : List Nat} : y ∈ sortIdx l ↔ y ∈ l := by
  induction l with
  | nil => simp [sortIdx]
  | cons x t ih => simp [sortIdx, mem_insertSorted, ih]

theorem groupPages_flatten : ∀ l : List Nat, ((groupPages l).map Prod.snd).flatten = l := by
  intro l
  induction l with
  | nil => rfl
  | cons h t ih =>
    unfold groupPages
    cases hg : groupPages t with
    | nil =>
      rw [hg] at ih
      simp at ih
      simp [← ih]
    | cons pg rest =>
      obtain ⟨p, g⟩ := pg
      rw [hg] at ih
      simp only [List.map_cons, List.flatten_cons] at ih
      dsimp only
      by_cases hp : pageOf h = p
      · rw [if_pos hp]
        simp only [List.map_cons, List.flatten_cons, List.cons_append]
        rw [ih]
      · rw [if_neg hp]
        simp only [List.map_cons, List.flatten_cons, List.singleton_append,
          List.cons_inj_right]
        exact ih

theorem groupPages_page : ∀ (l : List Nat) (pg : Nat × List Nat), pg ∈ groupPages l →
    ∀ idx ∈ pg.2, pg.1 = pageOf idx := by
  intro l
  induction l with
  | nil => simp [groupPages]
  | cons h t ih =>
    intro pg hpg idx hidx
    unfold groupPages at hpg
    cases hg : groupPages t with
    | nil =>
      rw [hg] at hpg
      simp at hpg
      subst hpg
      simp at hidx
      subst hidx
      rfl
    | cons pg' rest =>
      obtain ⟨p, g⟩ := pg'
      rw [hg] at hpg
      dsimp only at hpg
      by_cases hp : pageOf h = p
      · rw [if_pos hp] at hpg
        rcases List.mem_cons.mp hpg with hh | hh
        · subst hh
          rcases List.mem_cons.mp hidx with rfl | hh2
          · exact hp.symm
          · exact ih (p, g) (hg ▸ List.mem_cons_self _ _) idx hh2
        · exact ih pg (hg ▸ List.mem_cons_of_mem _ hh) idx hidx
      · rw [if_neg hp] at hpg
        rcases List.mem_cons.mp hpg with hh | hh
        · subst hh
          simp at hidx
          subst hidx
          rfl
        · exact ih pg (hg ▸ hh) idx hidx

theorem indexRecords_full {records : List Nat} (hlen : records.length = 1000) :
    ∀ g : List Nat, ∃ ws, indexRecords records g = some ws ∧ ws.length = g.length ∧
      ∀ w ∈ ws, ∃ idx ∈ g, records.get? (idx % 1000) = some w := by
  intro g
  induction g with
  | nil => exact ⟨[], rfl, rfl, by simp⟩
  | cons idx rest ih =>
    obtain ⟨ws, hws, hlenw, hmem⟩ := ih
    have hidx : idx % 1000 < records.length := by
      rw [hlen]; exact Nat.mod_lt _ (by norm_num)
    refine ⟨records.get ⟨idx % 1000, hidx⟩ :: ws, ?_, by simp [hlenw], ?_⟩
    · unfold indexRecords
      rw [List.get?_eq_get hidx, hws]
    · intro w hw
      rcases List.mem_cons.mp hw with rfl | hh
      · exact ⟨idx, List.mem_cons_self _ _, List.get?_eq_get hidx⟩
      · obtain ⟨idx', hidx', hget⟩ := hmem w hh
        exact ⟨idx', List.mem_cons_of_mem _ hidx', hget⟩

theorem collectWinners_full (api : ListingApi)
    (hfull : ∀ p, ∃ pr, api p = Except.ok pr ∧ pr.2.length = 1000) :
    ∀ groups : List (Nat × List Nat),
    ∃ ws, collectWinners api groups = Except.ok ws ∧
      ws.length = (groups.map (fun pg => pg.2.length)).sum ∧
      ∀ w ∈ ws, ∃ pg ∈ groups, ∃ idx ∈ pg.2, ∃ pr, api pg.1 = Except.ok pr ∧
        pr.2.get? (idx % 1000) = some w := by
  intro groups
  induction groups with
  | nil => exact ⟨[], rfl, rfl, by simp⟩
  | cons pg0 rest ih =>
    obtain ⟨p, g⟩ := pg0
    obtain ⟨pr, hpr, hprlen⟩ := hfull p
    obtain ⟨ws1, hws1, hlen1, hmem1⟩ := indexRecords_full hprlen g
    obtain ⟨ws2, hws2, hlen2, hmem2⟩ := ih
    refine ⟨ws1 ++ ws2, ?_, by simp [hlen1, hlen2], ?_⟩
    · simp only [collectWinners, hpr, hws1, hws2]
    · intro w hw
      rcases List.mem_append.mp hw with hh | hh
      · obtain ⟨idx, hidxg, hget⟩ := hmem1 w hh
        exact ⟨(p, g), List.mem_cons_self _ _, idx, hidxg, pr, hpr, hget⟩
      · obtain ⟨pg', hpg', idx, hidxg, pr', hpr', hget⟩ := hmem2 w hh
        exact ⟨pg', List.mem_cons_of_mem _ hpg', idx, hidxg, pr', hpr', hget⟩

/-- C2 (amended).  `draw_winners(n)` never checks `n` against the
holder count and has no `InsufficientHolders` error: whenever the
cached holder count is positive and the listing API serves full pages
of 1000 records, the call succeeds for every `n` (duplicates possible,
with replacement) and returns exactly `n` addresses, each one the
listing-API record at position `idx % 1000` of page `idx / 1000 + 1`
for an index `idx` drawn from `[0, holders_number)`.  The call can only
fail when the holder count is zero (the uniform sampler panics on an
empty range) or the API itself fails. -/
theorem c2_sampling_bounds_amended (api : ListingApi) (rng : Nat → Nat) (holders n : Nat)
    (hpos : 0 < holders)
    (hfull : ∀ p, ∃ pr, api p = Except.ok pr ∧ pr.2.length = 1000) :
    ∃ ws, draw_winners api rng holders n = Except.ok ws ∧ ws.length = n ∧
      ∀ w ∈ ws, ∃ idx, idx < holders ∧ ∃ pr, api (idx / 1000 + 1) = Except.ok pr ∧
        pr.2.get? (idx % 1000) = some w := by
  unfold draw_winners
  rw [if_neg (Nat.pos_iff_ne_zero.mp hpos)]
  obtain ⟨ws, hws, hlen, hmem⟩ := collectWinners_full api hfull
    (groupPages (sortIdx ((List.range n).map fun i => rng i % holders)))
  refine ⟨ws, hws, ?_, ?_⟩
  · rw [hlen]
    have hj := groupPages_flatten (sortIdx ((List.range n).map fun i => rng i % holders))
    have hlj := congrArg List.length hj
    rw [List.length_flatten, List.map_map] at hlj
    simpa [length_sortIdx] using hlj
  · intro w hw
    obtain ⟨pg, hpg, idx, hidxg, pr, hpr, hget⟩ := hmem w hw
    have hpage := groupPages_page _ pg hpg idx hidxg
    have hidxmem : idx ∈ sortIdx ((List.range n).map fun i => rng i % holders) := by
      have hj := groupPages_flatten (sortIdx ((List.range n).map fun i => rng i % holders))
      rw [← hj]
      exact List.mem_flatten.mpr ⟨pg.2, List.mem_map.mpr ⟨pg, hpg, rfl⟩, hidxg⟩
    have hlt : idx < holders := by
      obtain ⟨i, _, hi⟩ := List.mem_map.mp (mem_sortIdx.mp hidxmem)
      exact hi ▸ Nat.mod_lt _ hpos
    refine ⟨idx, hlt, pr, ?_, hget⟩
    rw [show idx / 1000 + 1 = pageOf idx from rfl, ← hpage]
    exact hpr

set_option maxRecDepth 10000 in
/-- Counterexample for C2 as stated: with a cached holder count of 10,
`draw_winners(10)` (`n = holders_number`) does not fail with an
`InsufficientHolders` error — no such error exists in the code — but
succeeds, returning ten addresses drawn with replacement. -/
theorem c2_insufficient_holders_counterexample :
    draw_winners apiPages rngSeq 10 10 = Except.ok [0, 1, 2, 3, 4, 5, 6, 7, 8, 9] := rfl

/-- Witness for C2 amended at scenario D inputs: `holders_number = 10`,
`draw_winners(9)` succeeds with exactly nine addresses from the listed
records. -/
theorem c2_sampling_bounds_amended_witness :
    ∃ ws, draw_winners apiPages rngSeq 10 9 = Except.ok ws ∧ ws.length = 9 ∧
      ∀ w ∈ ws, ∃ idx, idx < 10 ∧ ∃ pr, apiPages (idx / 1000 + 1) = Except.ok pr ∧
        pr.2.get? (idx % 1000) = some w :=
  c2_sampling_bounds_amended apiPages rngSeq 10 9 (by norm_num)
    (fun p => ⟨(1000, List.range 1000), rfl, by simp⟩)

theorem getLast?_filterMap_eq_reverse_findSome? {α β : Type} (f : α → Option β) :
    ∀ l : List α, (l.filterMap f).getLast? = l.reverse.findSome? f := by
  intro l
  induction l using List.reverseRecOn with
  | nil => rfl
  | append_singleton l a ih =>
    rw [List.filterMap_append, List.reverse_append]
    simp only [List.reverse_singleton, List.singleton_append, List.findSome?_cons]
    cases hfa : f a with
    | some b => simp [List.filterMap_cons, hfa, List.getLast?_concat]
    | none => simp [List.filterMap_cons, hfa, ih]

/-- C5.  Batch balance extraction of the live webhook path: the
balance handed to the threshold check is the one yielded by the last
record (in batch order) from which `vault_balance` succeeds — records
failing extraction are skipped individually, which is exactly the
`reverse.findSome?` characterization; when no record yields a balance
the handler is a no-op returning success with no effects; and when a
balance `b` is extracted the round runs on `b`. -/
theorem c5_batch_balance_extraction (env : Env) (st : AppState) (holders vault : Nat)
    (txs : List TxRecord) :
    (webhook_extract vault txs = txs.reverse.findSome? (vault_balance vault)) ∧
    (webhook_extract st.distributor_state.vault txs = none →
      webhook_handle env st holders txs = (Except.ok (), [])) ∧
    (∀ b, webhook_extract st.distributor_state.vault txs = some b →
      (webhook_handle env st holders txs).2 = (distribute_tokens env st holders b).2) := by
  refine ⟨getLast?_filterMap_eq_reverse_findSome? (vault_balance vault) txs, ?_, ?_⟩
  · intro hnone
    unfold webhook_handle
    rw [hnone]
  · intro b hb
    unfold webhook_handle
    rw [hb]
    rcases hd : distribute_tokens env st holders b with ⟨r, tr⟩
    cases r <;> simp [hd]

/-- Witness for C5: in the batch `[balance 7, unparsable, balance 9]`
the extracted balance is the last successful one; a batch with no
extractable balance is acknowledged as a no-op; and the effects of a
handled batch are those of the round on the extracted balance. -/
theorem c5_batch_balance_extraction_witness :
    (webhook_extract 100 [txWith 7, txBad, txWith 9] =
      ([txWith 7, txBad, txWith 9].reverse.findSome? (vault_balance 100))) ∧
    (webhook_handle envOk stA 0 [txBad] = (Except.ok (), [])) ∧
    ((webhook_handle envOk stA 0 [txWith 7, txBad, txWith 9]).2 =
      (distribute_tokens envOk stA 0 9).2) :=
  ⟨(c5_batch_balance_extraction envOk stA 0 100 [txWith 7, txBad, txWith 9]).1,
   (c5_batch_balance_extraction envOk stA 0 100 [txBad]).2.1 rfl,
   (c5_batch_balance_extraction envOk stA 0 100 [txWith 7, txBad, txWith 9]).2.2 9 rfl⟩

set_option maxRecDepth 10000 in
/-- Counterexample for C8 as stated: a validated trigger whose round
later fails does not give the caller a successful acknowledgement — on
a batch carrying vault balance `5·10^9` (at threshold) with the fee
estimation failing, the live webhook handler answers HTTP 500. -/
theorem c8_ack_counterexample :
    webhook_extract stA.distributor_state.vault [txWith 5000000000] = some 5000000000 ∧
    (webhook_handle envFeeFail stA 0 [txWith 5000000000]).1 = Except.error 500 :=
  ⟨rfl, rfl⟩

/-- C8 (amended).  Acknowledgement in the live webhook path is coupled
to the round outcome: the caller receives success exactly when either
no record of the batch yields a vault balance (the event is a no-op) or
the round run on the extracted balance succeeds; a round failure is
reported to the caller as an internal server error. -/
theorem c8_ack_amended (env : Env) (st : AppState) (holders : Nat) (txs : List TxRecord) :
    (webhook_handle env st holders txs).1 = Except.ok () ↔
      (webhook_extract st.distributor_state.vault txs = none ∨
        ∃ b, webhook_extract st.distributor_state.vault txs = some b ∧
          (distribute_tokens env st holders b).1 = Except.ok ()) := by
  unfold webhook_handle
  cases hx : webhook_extract st.distributor_state.vault txs with
  | none => simp
  | some b =>
    rcases hd : distribute_tokens env st holders b with ⟨r, tr⟩
    cases r with
    | ok u => simp [hd]
    | error e => simp [hd]

/-- Witness for C8 amended: a batch with no extractable balance is
acknowledged with success. -/
theorem c8_ack_amended_witness :
    (webhook_handle envOk stA 0 [txBad]).1 = Except.ok () :=
  (c8_ack_amended envOk stA 0 [txBad]).mpr (Or.inl rfl)

/-- C6.  Fee pricing: past the threshold, with the holder refresh, the
winner draw and the blockhash fetch succeeding, a failing
fee-estimation call fails the whole round — its error is the round's
result, nothing is submitted and no fallback price is used — while a
successful estimate `q` leads to a submitted transaction whose
instruction list attaches the fixed compute-unit limit 800000 and the
compute-unit price `q` truncated to `u64`. -/
theorem c6_fee_pricing (env : Env) (st : AppState) (holders balance h : Nat)
    (ws : List Nat) (bh : Nat)
    (hth : mulW st.distributor_state.share_size st.distributor_state.number_of_shares ≤ balance)
    (hupd : update_token_holders_number env.api holders = Except.ok h)
    (hdraw : draw_winners env.api env.rng h (subW st.distributor_state.number_of_shares 1) =
      Except.ok ws)
    (hbh : env.blockhashResult = Except.ok bh) :
    (∀ e, env.feeResult = Except.error e →
      (distribute_tokens env st holders balance).1 = Except.error e ∧
      ∀ tx, Effect.submitted tx ∉ (distribute_tokens env st holders balance).2) ∧
    (∀ q sig, env.feeResult = Except.ok q → env.sendResult = Except.ok sig →
      ∃ tx, (distribute_tokens env st holders balance).2 =
          [Effect.refreshed h, Effect.drew ws, Effect.submitted tx] ∧
        Instr.computeUnitLimit 800000 ∈ tx.instructions ∧
        Instr.computeUnitPrice (feeTruncate q) ∈ tx.instructions) := by
  constructor
  · intro e he
    unfold distribute_tokens
    simp [hth, hupd, hdraw, hbh, fetch_recent_priority_fee, he, Except.map]
  · intro q sig hq hsend
    unfold distribute_tokens
    simp [hth, hupd, hdraw, hbh, fetch_recent_priority_fee, hq, hsend, Except.map]

set_option maxRecDepth 10000 in
/-- Witness for C6: at scenario-A inputs a failing fee estimation fails
the round with nothing submitted, and a successful estimate of 3 is
attached as the compute-unit price next to the 800000 unit limit. -/
theorem c6_fee_pricing_witness :
    ((distribute_tokens envFeeFail stA 0 5000000000).1 =
        Except.error "fee estimation unavailable" ∧
      ∀ tx, Effect.submitted tx ∉ (distribute_tokens envFeeFail stA 0 5000000000).2) ∧
    ∃ tx, (distribute_tokens envOk stA 0 5000000000).2 =
        [Effect.refreshed 3, Effect.drew [0, 0, 1, 2], Effect.submitted tx] ∧
      Instr.computeUnitLimit 800000 ∈ tx.instructions ∧
      Instr.computeUnitPrice (feeTruncate 3) ∈ tx.instructions := by
  constructor
  · exact (c6_fee_pricing envFeeFail stA 0 5000000000 3 [0, 0, 1, 2] 1
      (by decide) rfl rfl rfl).1 _ rfl
  · exact (c6_fee_pricing envOk stA 0 5000000000 3 [0, 0, 1, 2] 1
      (by decide) rfl rfl rfl).2 3 0 rfl rfl

theorem distribute_tokens_trace_of_over (env : Env) (st : AppState) (holders balance : Nat)
    (hth : mulW st.distributor_state.share_size st.distributor_state.number_of_shares ≤ balance)
    (hok : (distribute_tokens env st holders balance).1 = Except.ok ()) :
    (distribute_tokens env st holders balance).2 ≠ [] := by
  unfold distribute_tokens at hok ⊢
  simp only [hth, if_pos] at hok ⊢
  rcases hu : update_token_holders_number env.api holders with e | h <;> simp [hu] at hok ⊢
  rcases hd : draw_winners env.api env.rng h (subW st.distributor_state.number_of_shares 1)
    with e | ws <;> simp [hd] at hok ⊢
  rcases hb : env.blockhashResult with e | bh <;> simp [hb] at hok ⊢
  rcases hf : fetch_recent_priority_fee env.feeResult with e | fee <;> simp [hf] at hok ⊢
  rcases hs : env.sendResult with e | sig <;> simp [hs] at hok ⊢

set_option maxRecDepth 10000 in
/-- Counterexample for C7 as stated: on a state whose product
`share_size * number_of_shares = 2^63 * 2 = 2^64` overflows `u64`, the
backend does not reject the threshold computation — it evaluates it
with wrapped arithmetic (threshold 0) and runs a full round even at
vault balance 0. -/
theorem c7_overflow_counterexample :
    U64 ≤ stOverflow.distributor_state.share_size *
        stOverflow.distributor_state.number_of_shares ∧
    (distribute_tokens envOk stOverflow 0 0).1 = Except.ok () ∧
    (distribute_tokens envOk stOverflow 0 0).2.length = 3 :=
  ⟨by decide, rfl, rfl⟩

/-- C7 (amended).  The overflow validation of
`share_size * number_of_shares` lives only in the on-ledger
`initialize` instruction, which accepts parameters exactly when
`share_size > 0`, `number_of_shares > 1` and the product fits in
`u64`; the backend performs no re-validation — its no-round decision
is governed exactly by the wrapped (`mod 2^64`) product, so a
`DistributorState` with an overflowing product is evaluated with
wrapped arithmetic rather than rejected. -/
theorem c7_overflow_amended (share_size number_of_shares : Nat) :
    (initialize_check share_size number_of_shares = Except.ok () ↔
      0 < share_size ∧ 1 < number_of_shares ∧ share_size * number_of_shares < U64) ∧
    ∀ env st holders balance,
      ((distribute_tokens env st holders balance).1 = Except.ok () ∧
        (distribute_tokens env st holders balance).2 = []) ↔
      balance < mulW st.distributor_state.share_size st.distributor_state.number_of_shares := by
  constructor
  · unfold initialize_check
    split_ifs with h1 h2 h3 <;> simp_all
  · intro env st holders balance
    by_cases hth : mulW st.distributor_state.share_size st.distributor_state.number_of_shares ≤
      balance
    · constructor
      · rintro ⟨h1, h2⟩
        exact absurd h2 (distribute_tokens_trace_of_over env st holders balance hth h1)
      · intro hlt
        omega
    · unfold distribute_tokens
      rw [if_neg hth]
      exact iff_of_true ⟨rfl, rfl⟩ (Nat.lt_of_not_le hth)

set_option maxRecDepth 10000 in
/-- Witness for C7 amended: `initialize` accepts `share_size = 5`,
`number_of_shares = 3`, and at scenario-B inputs the backend's no-round
outcome coincides with the balance being below the wrapped
threshold. -/
theorem c7_overflow_amended_witness :
    initialize_check 5 3 = Except.ok () ∧
    (distribute_tokens envOk stA 0 4000000000).1 = Except.ok () ∧
    (distribute_tokens envOk stA 0 4000000000).2 = [] := by
  refine ⟨(c7_overflow_amended 5 3).1.mpr (by norm_num [U64]), ?_⟩
  exact ((c7_overflow_amended 5 3).2 envOk stA 0 4000000000).mpr (by decide)

theorem length_remainingAccounts (ws : List Nat) (mint : Nat) :
    (remainingAccounts ws mint).length = 2 * ws.length := by
  induction ws with
  | nil => rfl
  | cons w t ih =>
    simp only [remainingAccounts, List.length_cons, ih]
    omega

theorem remainingAccounts_get (ws : List Nat) (mint : Nat) :
    ∀ i, i < ws.length →
      (remainingAccounts ws mint).get? (2 * i) =
        some { pubkey := ws.getD i 0, isSigner := false, isWritable := false } ∧
      (remainingAccounts ws mint).get? (2 * i + 1) =
        some { pubkey := get_associated_token_address (ws.getD i 0) mint,
               isSigner := false, isWritable := true } := by
  induction ws with
  | nil => intro i h; exact absurd h (by simp)
  | cons w t ih =>
    intro i hi
    cases i with
    | zero => exact ⟨rfl, rfl⟩
    | succ j =>
      have hj : j < t.length := by simpa using hi
      have hidx : 2 * (j + 1) = 2 * j + 1 + 1 := by ring
      have hidx1 : 2 * (j + 1) + 1 = (2 * j + 1) + 1 + 1 := by ring
      constructor
      · rw [hidx]
        show (remainingAccounts t mint).get? (2 * j) = _
        simpa using (ih j hj).1
      · rw [hidx1]
        show (remainingAccounts t mint).get? (2 * j + 1) = _
        simpa using (ih j hj).2

theorem expected_len_eq {S : Nat} (h1 : 1 ≤ S) (h2 : S ≤ 2 ^ 63) :
    mulW (subW S 1) 2 = 2 * (S - 1) := by
  unfold mulW subW U64
  omega

/-- C9.  Account shaping: for a winner list of length `S - 1` the
assembled auxiliary account list carries exactly `2 * (S - 1)` entries
after the fixed accounts, alternating the winner authority (read-only)
and the winner's associated token account for the distributed mint
(writable) in winner order; and the on-ledger `distribute` instruction
rejects, with `MissingRemainingAccounts`, any call whose auxiliary
account count differs from `2 * (S - 1)`. -/
theorem c9_account_shaping (S : Nat) (winners : List Nat) (mint : Nat)
    (h1 : 1 ≤ S) (h2 : S ≤ 2 ^ 63) (hlen : winners.length = S - 1) :
    (remainingAccounts winners mint).length = 2 * (S - 1) ∧
    (∀ i, i < winners.length →
      (remainingAccounts winners mint).get? (2 * i) =
        some { pubkey := winners.getD i 0, isSigner := false, isWritable := false } ∧
      (remainingAccounts winners mint).get? (2 * i + 1) =
        some { pubkey := get_associated_token_address (winners.getD i 0) mint,
               isSigner := false, isWritable := true }) ∧
    (∀ (st : DistributorState) (bal : Balances) (rem : List AccountMeta),
      st.number_of_shares = S →
      st.threshold ≤ bal st.vault →
      rem.length ≠ 2 * (S - 1) →
      distribute st rem bal = Except.error DistributorError.MissingRemainingAccounts) := by
  refine ⟨by rw [length_remainingAccounts, hlen], remainingAccounts_get winners mint, ?_⟩
  intro st bal rem hS hth hne
  unfold distribute
  rw [if_neg (Nat.not_lt.mpr hth), hS, expected_len_eq h1 h2, if_neg hne]

/-- Witness for C9 with `S = 3` and winners 11, 12: four alternating
auxiliary accounts, and the on-ledger program rejects an empty
auxiliary list. -/
theorem c9_account_shaping_witness :
    (remainingAccounts [11, 12] 7).length = 2 * (3 - 1) ∧
    (remainingAccounts [11, 12] 7).get? 0 =
      some { pubkey := 11, isSigner := false, isWritable := false } ∧
    (remainingAccounts [11, 12] 7).get? 3 =
      some { pubkey := get_associated_token_address 12 7, isSigner := false,
             isWritable := true } ∧
    distribute stChain [] balChain = Except.error DistributorError.MissingRemainingAccounts := by
  have h := c9_account_shaping 3 [11, 12] 7 (by norm_num) (by norm_num) rfl
  refine ⟨h.1, ?_, ?_, h.2.2 stChain balChain [] rfl (by decide) (by decide)⟩
  · simpa using (h.2.1 0 (by norm_num)).1
  · simpa using (h.2.1 1 (by norm_num)).2

theorem length_pairsOf : ∀ l : List AccountMeta, (pairsOf l).length = l.length / 2
  | [] => rfl
  | [_] => by
    show (0 : Nat) = 1 / 2
    decide
  | a :: b :: t => by
    have ih := length_pairsOf t
    simp only [pairsOf, List.length_cons, ih]
    omega

theorem transferChecked_ok {amount vault dest : Nat} {bal bal' : Balances}
    (hvd : dest ≠ vault)
    (h : transferChecked amount vault dest bal = Except.ok bal') :
    amount ≤ bal vault ∧ bal' vault = bal vault - amount ∧
    bal' dest = bal dest + amount ∧
    ∀ a, a ≠ vault → a ≠ dest → bal' a = bal a := by
  unfold transferChecked at h
  split_ifs at h with h1 h2
  injection h with h
  subst h
  refine ⟨Nat.not_lt.mp h1, ?_, ?_, ?_⟩
  · simp [updateBal, Ne.symm hvd]
  · simp [updateBal, hvd]
  · intro a hav had
    simp [updateBal, hav, had]

theorem runTransfers_spec (st : DistributorState) :
    ∀ (pairs : List (AccountMeta × AccountMeta)) (bal bal' : Balances),
    runTransfers st pairs bal = Except.ok bal' →
    st.vault ∉ pairs.map (fun pr => pr.2.pubkey) →
    (bal' st.vault + st.share_size * pairs.length = bal st.vault ∧
     ((pairs.map (fun pr => pr.2.pubkey)).Nodup →
       ∀ pr ∈ pairs, bal' pr.2.pubkey = bal pr.2.pubkey + st.share_size) ∧
     (∀ a, a ≠ st.vault → a ∉ pairs.map (fun pr => pr.2.pubkey) → bal' a = bal a)) := by
  intro pairs
  induction pairs with
  | nil =>
    intro bal bal' h hv
    simp only [runTransfers] at h
    injection h with h
    subst h
    exact ⟨by simp, by simp, fun a _ _ => rfl⟩
  | cons pr0 rest ih =>
    obtain ⟨auth, ta⟩ := pr0
    intro bal bal' h hv
    have hv' : st.vault ≠ ta.pubkey ∧ st.vault ∉ rest.map (fun pr => pr.2.pubkey) := by
      simpa using hv
    unfold runTransfers at h
    split_ifs at h with hata
    cases ht : transferChecked st.share_size st.vault ta.pubkey bal with
    | error e => rw [ht] at h; exact absurd h (by simp)
    | ok bal1 =>
      rw [ht] at h
      dsimp only at h
      have htc := transferChecked_ok (Ne.symm hv'.1) ht
      have ihres := ih bal1 bal' h hv'.2
      refine ⟨?_, ?_, ?_⟩
      · have h1 := ihres.1
        rw [htc.2.1] at h1
        have hmul : st.share_size * (rest.length + 1) =
            st.share_size * rest.length + st.share_size := by ring
        simp only [List.length_cons, hmul]
        have hle := htc.1
        generalize st.share_size * rest.length = k at h1 ⊢
        omega
      · intro hnd pr hpr
        have hnd0 := hnd
        simp only [List.map_cons] at hnd0
        have hnd' := List.nodup_cons.mp hnd0
        rcases List.mem_cons.mp hpr with rfl | hpr'
        · rw [ihres.2.2 ta.pubkey (Ne.symm hv'.1) hnd'.1, htc.2.2.1]
        · have hmem : pr.2.pubkey ∈ rest.map (fun pr => pr.2.pubkey) :=
            List.mem_map.mpr ⟨pr, hpr', rfl⟩
          rw [ihres.2.1 hnd'.2 pr hpr',
            htc.2.2.2 pr.2.pubkey (fun he => hv'.2 (he ▸ hmem))
              (fun he => hnd'.1 (he ▸ hmem))]
      · intro a hav hamem
        have ha' : a ≠ ta.pubkey ∧ a ∉ rest.map (fun pr => pr.2.pubkey) := by
          simpa using hamem
        rw [ihres.2.2 a hav ha'.2, htc.2.2.2 a hav ha'.1]

/-- C10.  Disposition of the reserved share: a successful on-ledger
`distribute` performs one `share_size` transfer from the vault to each
of the `number_of_shares - 1` listed winner token accounts and one
`share_size` burn from the vault, so the vault balance decreases by
exactly `share_size * number_of_shares` — the reserved last share is
burned, never paid out; every account other than the vault and the
listed token accounts is untouched. -/
theorem c10_reserved_share (st : DistributorState) (rem : List AccountMeta)
    (bal bal' : Balances)
    (hS1 : 1 ≤ st.number_of_shares) (hS2 : st.number_of_shares ≤ 2 ^ 63)
    (hvault : st.vault ∉ (pairsOf rem).map (fun pr => pr.2.pubkey))
    (hok : distribute st rem bal = Except.ok bal') :
    bal' st.vault + st.share_size * st.number_of_shares = bal st.vault ∧
    (((pairsOf rem).map (fun pr => pr.2.pubkey)).Nodup →
      ∀ pr ∈ pairsOf rem, bal' pr.2.pubkey = bal pr.2.pubkey + st.share_size) ∧
    (∀ a, a ≠ st.vault → a ∉ (pairsOf rem).map (fun pr => pr.2.pubkey) →
      bal' a = bal a) := by
  unfold distribute at hok
  split_ifs at hok with h1 h2
  cases hrt : runTransfers st (pairsOf rem) bal with
  | error e => rw [hrt] at hok; exact absurd hok (by simp)
  | ok bal1 =>
    rw [hrt] at hok
    dsimp only at hok
    unfold burnChecked at hok
    split_ifs at hok with h3
    injection hok with hok
    subst hok
    have hsp := runTransfers_spec st (pairsOf rem) bal bal1 hrt hvault
    have hplen : (pairsOf rem).length = st.number_of_shares - 1 := by
      rw [length_pairsOf, h2, expected_len_eq hS1 hS2]
      omega
    have hSsplit : st.share_size * st.number_of_shares =
        st.share_size * (st.number_of_shares - 1) + st.share_size := by
      have hs : st.number_of_shares - 1 + 1 = st.number_of_shares := Nat.sub_add_cancel hS1
      calc st.share_size * st.number_of_shares
          = st.share_size * ((st.number_of_shares - 1) + 1) := by rw [hs]
        _ = st.share_size * (st.number_of_shares - 1) + st.share_size := by ring
    refine ⟨?_, ?_, ?_⟩
    · have hv1 := hsp.1
      rw [hplen] at hv1
      have hb : updateBal bal1 st.vault (bal1 st.vault - st.share_size) st.vault =
          bal1 st.vault - st.share_size := by simp [updateBal]
      rw [hb, hSsplit]
      have hle := Nat.not_lt.mp h3
      generalize st.share_size * (st.number_of_shares - 1) = k at hv1 ⊢
      omega
    · intro hnd pr hpr
      have hne : pr.2.pubkey ≠ st.vault := by
        intro he
        exact hvault (he ▸ List.mem_map.mpr ⟨pr, hpr, rfl⟩)
      have hb : updateBal bal1 st.vault (bal1 st.vault - st.share_size) pr.2.pubkey =
          bal1 pr.2.pubkey := by simp [updateBal, hne]
      rw [hb]
      exact hsp.2.1 hnd pr hpr
    · intro a hav hamem
      have hb : updateBal bal1 st.vault (bal1 st.vault - st.share_size) a = bal1 a := by
        simp [updateBal, hav]
      rw [hb]
      exact hsp.2.2 a hav hamem

/-- Witness for C10: with `share_size = 5`, `number_of_shares = 3`,
winners 11 and 12 and a vault holding 20, the instruction succeeds,
the vault drops to 5 (two transfers plus one burn of 5 each) and each
winner token account gains 5. -/
theorem c10_reserved_share_witness :
    ∃ b, distribute stChain remChain balChain = Except.ok b ∧
      b 100 + 5 * 3 = 20 ∧
      b (get_associated_token_address 11 7) =
        balChain (get_associated_token_address 11 7) + 5 ∧
      b (get_associated_token_address 12 7) =
        balChain (get_associated_token_address 12 7) + 5 ∧
      b 555 = balChain 555 := by
  cases hE : distribute stChain remChain balChain with
  | error e =>
    have hOk : (distribute stChain remChain balChain).isOk = true := rfl
    rw [hE] at hOk
    exact absurd hOk (by simp [Except.isOk, Except.toBool])
  | ok b =>
    have h := c10_reserved_share stChain remChain balChain b (by decide) (by decide)
      (by decide) hE
    refine ⟨b, rfl, h.1, ?_, ?_, ?_⟩
    · have := h.2.1 (by decide) (remChain.get ⟨0, by decide⟩,
        remChain.get ⟨1, by decide⟩) (by decide)
      simpa [remChain, remainingAccounts] using this
    · have := h.2.1 (by decide) (remChain.get ⟨2, by decide⟩,
        remChain.get ⟨3, by decide⟩) (by decide)
      simpa [remChain, remainingAccounts] using this
    · exact h.2.2 555 (by decide) (by decide)
